import Mathlib

set_option maxRecDepth 4000

/-!
Verification development for the Shanghai real-estate scraper
(`scraper/scrape.py`).  The Python source is shallowly embedded:
pure parsing and persistence logic becomes Lean functions over
`List Char`, `Option ℚ` and explicit `Except` error values; the
network-bound model backend is an oracle parameter of type
`Except PyErr _`.  Python floats are idealised as rationals (the
claims under study do not hinge on binary floating-point rounding),
and Python exceptions raised by `float`/`int` conversions are made
explicit via `Option`-returning conversions lifted into `Except`.
-/

/-- Python exception values that the embedded code can raise.
`float("")` and similar conversions raise `ValueError`. -/
inductive PyErr where
  | valueError
deriving DecidableEq

-- ── Character predicates ────────────────────────────────────────────────

/-- ASCII decimal digit, the relevant fragment of Python's `\d`. -/
def isDigit (c : Char) : Bool := '0' ≤ c && c ≤ '9'

/-- Character class `[\d,]` used by the numeric captures. -/
def isDigitComma (c : Char) : Bool := isDigit c || c = ','

/-- Python's `\s` (and `str.strip`) whitespace, restricted to the ASCII
white space characters plus the two common Unicode spaces; the remaining
exotic Unicode whitespace code points never occur in the texts the
claims are about. -/
def isPyWs (c : Char) : Bool :=
  c = ' ' || c = '\t' || c = '\n' || c = '\r' || c = '\x0b' || c = '\x0c' ||
  c = ' ' || c = '　'

/-- Character class `[：:\s]` separating a label from its number
(`scrape.py` lines 97 and 100). -/
def isSepSH (c : Char) : Bool := c = '：' || c = ':' || isPyWs c

/-- Character class `[预出售各类商品房]` of `scrape.py` line 118. -/
def nhClassChar (c : Char) : Bool :=
  c = '预' || c = '出' || c = '售' || c = '各' || c = '类' || c = '商' || c = '品' || c = '房'

-- ── Python numeric conversions ──────────────────────────────────────────

/-- Value of a list of ASCII digits, most significant first. -/
def digitsToNat (l : List Char) : ℕ :=
  l.foldl (fun a c => a * 10 + (c.toNat - 48)) 0

/-- `str.replace(",", "")`. -/
def removeCommas (l : List Char) : List Char := l.filter (fun c => !(c = ','))

/-- Python `int(s)` on the strings reachable here (digits only); `none`
models a raised `ValueError`.  Signs/whitespace are unreachable because
every capture consists of digits and commas. -/
def pyInt (l : List Char) : Option ℤ :=
  if !l.isEmpty && l.all isDigit then some ((digitsToNat l : ℤ)) else none

/-- Fractional value of the digits after a decimal point. -/
def fracOf (l : List Char) : ℚ := (digitsToNat l : ℚ) / ((10 : ℚ) ^ l.length)

/-- Python `float(s)` on the strings reachable here: an optional digit
run, an optional dot, an optional digit run, with at least one digit
overall (`float("")` and `float(".")` raise, modelled by `none`). -/
def pyFloat (l : List Char) : Option ℚ :=
  let d1 := l.takeWhile isDigit
  let r := l.dropWhile isDigit
  match r with
  | [] => if d1.isEmpty then none else some ((digitsToNat d1 : ℚ))
  | '.' :: r2 =>
      let d2 := r2.takeWhile isDigit
      if !(r2.dropWhile isDigit).isEmpty then none
      else if d1.isEmpty && d2.isEmpty then none
      else some ((digitsToNat d1 : ℚ) + fracOf d2)
  | _ => none

-- ── Rounding and the derived average (`avg_area`, lines 244-250) ────────

/-- Round a rational to the nearest integer, ties to even: the idealised
behaviour of Python's `round` (the binary floating-point argument is
idealised as an exact rational). -/
def halfEven (x : ℚ) : ℤ :=
  let f := ⌊x⌋
  let r := x - f
  if r < 1/2 then f
  else if (1:ℚ)/2 < r then f + 1
  else if f % 2 = 0 then f else f + 1

/-- Python `round(x, 2)` on the idealised rational. -/
def roundTo2 (x : ℚ) : ℚ := (halfEven (100 * x) : ℚ) / 100

/-- Python truthiness of an optional numeric value: `None` and `0` are
falsy, everything else truthy. -/
def pyTruthy : Option ℚ → Bool
  | none => false
  | some x => !(x = 0)

/-- `avg_area(units, area)` of `scrape.py` lines 244-250:
`round(area/units, 2)` when `units and area and float(units) > 0`,
otherwise `None`; the `try/except` can never fire on numeric inputs. -/
def avg_area (units area : Option ℚ) : Option ℚ :=
  if pyTruthy units && pyTruthy area && decide (0 < units.getD 0) then
    some (roundTo2 (area.getD 0 / units.getD 0))
  else none

/-- Decidable equality of `Except` values, used to evaluate concrete
runs of the embedded fallible functions. -/
instance {ε α : Type} [DecidableEq ε] [DecidableEq α] : DecidableEq (Except ε α) := fun a b =>
  match a, b with
  | Except.ok x, Except.ok y =>
      if h : x = y then Decidable.isTrue (by rw [h])
      else Decidable.isFalse (by intro hh; cases hh; exact h rfl)
  | Except.error x, Except.error y =>
      if h : x = y then Decidable.isTrue (by rw [h])
      else Decidable.isFalse (by intro hh; cases hh; exact h rfl)
  | Except.ok _, Except.error _ => Decidable.isFalse (by intro hh; cases hh)
  | Except.error _, Except.ok _ => Decidable.isFalse (by intro hh; cases hh)

-- ── Candidate records ───────────────────────────────────────────────────

/-- Candidate for the second-hand group: the parsed dict with keys
`units` and `area` and numeric-or-`None` values. -/
structure SHCand where
  units : Option ℚ
  area : Option ℚ
deriving DecidableEq

/-- Result of `regex_parse_new_house` (lines 115-127). -/
structure NHCand where
  units : Option ℚ
  area : Option ℚ
deriving DecidableEq

/-- Candidate for the trade group: the dict with keys
`new_house_units`, `new_house_area`, `listing_total`. -/
structure TradeCand where
  new_house_units : Option ℚ
  new_house_area : Option ℚ
  listing_total : Option ℚ
deriving DecidableEq

-- ── Generic leftmost search for patterns anchored at a literal ──────────

/-- If `lit` is a prefix of `l`, the remainder after it. -/
def stripPrefixL (lit l : List Char) : Option (List Char) :=
  match lit, l with
  | [], r => some r
  | _ :: _, [] => none
  | a :: lit', c :: r => if a = c then stripPrefixL lit' r else none

/-- `re.search` for a pattern whose compiled form is a literal `lit`
followed by a deterministic continuation `k`: attempt the match at every
position from the left; at a position where the literal matches but `k`
fails the search continues one character further right, exactly like the
backtracking engine. -/
def searchAfterLit (lit : List Char) (k : List Char → Option α) : List Char → Option α
  | [] => match stripPrefixL lit [] with
          | some r => k r
          | none => none
  | c :: rest =>
      match stripPrefixL lit (c :: rest) with
      | some r => match k r with
                  | some v => some v
                  | none => searchAfterLit lit k rest
      | none => searchAfterLit lit k rest

/-- `pre.isPrefixOf l` on characters. -/
def startsWithL (pre l : List Char) : Bool := (stripPrefixL pre l).isSome

/-- Substring test, for the `kw in text` checks of lines 187 and 208. -/
def isSubstr (pat : List Char) : List Char → Bool
  | [] => (stripPrefixL pat []).isSome
  | c :: r => (stripPrefixL pat (c :: r)).isSome || isSubstr pat r

-- ── Capture cores shared by the patterns ────────────────────────────────

/-- Greedy `[：:\s]*`: the following separator run is maximal; since the
class is disjoint from `[\d,]`, the regex engine never backtracks into
it. -/
def sepRun (l : List Char) : List Char := l.dropWhile isSepSH

/-- Greedy `(\d[\d,]*)`: a digit followed by the maximal `[\d,]` run.
Returns the capture and the rest of the input. -/
def capDigitCommaRun : List Char → Option (List Char × List Char)
  | [] => none
  | c :: r =>
      if isDigit c then some (c :: r.takeWhile isDigitComma, r.dropWhile isDigitComma)
      else none

/-- Greedy `([\d,]+\.?\d*)`: maximal `[\d,]` run (nonempty), an optional
dot, then a maximal digit run.  Returns capture and rest.  When the
following pattern part fails, backtracking into this capture always
re-exposes a `[\d,.]` character at the resume point, which none of the
tails (`\s*套?`, `\s*平方米`, end of pattern) can consume, so the
full-greedy parse is the only candidate the engine ever accepts. -/
def floatCap (l : List Char) : Option (List Char × List Char) :=
  let r1 := l.takeWhile isDigitComma
  if r1.isEmpty then none
  else
    match l.dropWhile isDigitComma with
    | '.' :: r2 => some (r1 ++ '.' :: r2.takeWhile isDigit, r2.dropWhile isDigit)
    | rest => some (r1, rest)

-- ── `regex_parse_second_hand` (lines 94-103) ────────────────────────────

/-- Continuation of `昨日二手房成交套数[：:\s]*(\d[\d,]*)\s*套?`: the
trailing `\s*套?` matches anything, so the capture is just the greedy
digit/comma run after the separator run. -/
def shUnitsK (r : List Char) : Option (List Char) :=
  (capDigitCommaRun (sepRun r)).map (fun p => p.1)

/-- Group 1 of `re.search(r'昨日二手房成交套数[：:\s]*(\d[\d,]*)\s*套?', text)`. -/
def shUnitsCapture (t : List Char) : Option (List Char) :=
  searchAfterLit ("昨日二手房成交套数".toList) shUnitsK t

/-- Continuation of `昨日二手房成交面积[：:\s]*([\d,]+\.?\d*)`. -/
def shAreaK (r : List Char) : Option (List Char) :=
  (floatCap (sepRun r)).map (fun p => p.1)

/-- Group 1 of `re.search(r'昨日二手房成交面积[：:\s]*([\d,]+\.?\d*)', text)`. -/
def shAreaCapture (t : List Char) : Option (List Char) :=
  searchAfterLit ("昨日二手房成交面积".toList) shAreaK t

/-- `regex_parse_second_hand(text)` of lines 94-103: `units` via
`int(m.group(1).replace(",", ""))`, `area` via
`float(m.group(1).replace(",", ""))`; a conversion failure is a raised
`ValueError` (`Except.error`). -/
def regex_parse_second_hand (t : List Char) : Except PyErr SHCand :=
  let unitsStep : Except PyErr (Option ℚ) :=
    match shUnitsCapture t with
    | none => Except.ok none
    | some g => match pyInt (removeCommas g) with
                | some n => Except.ok (some (n : ℚ))
                | none => Except.error PyErr.valueError
  match unitsStep with
  | Except.error e => Except.error e
  | Except.ok u =>
      match shAreaCapture t with
      | none => Except.ok ⟨u, none⟩
      | some g => match pyFloat (removeCommas g) with
                  | some v => Except.ok ⟨u, some v⟩
                  | none => Except.error PyErr.valueError

-- ── `regex_parse_listing` (lines 106-112) ───────────────────────────────

/-- After skipping `\s*`, consume a literal `套`. -/
def afterTao (l : List Char) : Option (List Char) :=
  match l.dropWhile isPyWs with
  | '套' :: after => some after
  | _ => none

/-- One attempt of `(\d{4,6})\s*套` at a fixed position with a fixed
repetition count `n`: exactly `n` digits, optional whitespace, then
`套`.  Returns the capture and the input after the whole match. -/
def listingTryLen (n : ℕ) (l : List Char) : Option (List Char × List Char) :=
  if ((l.take n).length = n && (l.take n).all isDigit) then
    match afterTao (l.drop n) with
    | some after => some (l.take n, after)
    | none => none
  else none

/-- `(\d{4,6})\s*套` at a fixed position: the greedy engine tries six,
then five, then four digits. -/
def listingAt (l : List Char) : Option (List Char × List Char) :=
  match listingTryLen 6 l with
  | some r => some r
  | none => match listingTryLen 5 l with
            | some r => some r
            | none => listingTryLen 4 l

/-- Scanning loop of `re.findall(r'(\d{4,6})\s*套', text)`:
non-overlapping leftmost matches, resuming after each match.  The fuel
argument only bounds the number of steps so that the recursion is
structural; each step consumes at least one character, so any fuel of at
least the input length computes the full scan. -/
def findallAux : ℕ → List Char → List (List Char)
  | 0, _ => []
  | _, [] => []
  | fuel + 1, c :: rest =>
      match listingAt (c :: rest) with
      | some (g, after) => g :: findallAux fuel after
      | none => findallAux fuel rest

/-- `re.findall(r'(\d{4,6})\s*套', text)`. -/
def findallListing (t : List Char) : List (List Char) := findallAux (t.length + 1) t

/-- `int(n)` over every capture, failing like Python's `int` would. -/
def intsOfCaps : List (List Char) → Except PyErr (List ℤ)
  | [] => Except.ok []
  | g :: gs =>
      match pyInt g with
      | some n => match intsOfCaps gs with
                  | Except.ok ns => Except.ok (n :: ns)
                  | Except.error e => Except.error e
      | none => Except.error PyErr.valueError

/-- `regex_parse_listing(text)` of lines 106-112:
`max(int(n) for n in nums)` when any `(\d{4,6})\s*套` matches, else
`None`. -/
def regex_parse_listing (t : List Char) : Except PyErr (Option ℚ) :=
  match findallListing t with
  | [] => Except.ok none
  | g :: gs =>
      match pyInt g with
      | none => Except.error PyErr.valueError
      | some n =>
          match intsOfCaps gs with
          | Except.error e => Except.error e
          | Except.ok ns => Except.ok (some ((ns.foldl max n : ℤ) : ℚ))

-- ── `regex_parse_new_house` (lines 115-127) ─────────────────────────────

/-- Continuation of
`今日[共]?[预出售各类商品房]*\s*(\d[\d,]*)\s*套` after the literal
`今日`: the optional `共`, the character-class run and the whitespace
run are each disjoint from what may follow them, so the engine consumes
them greedily with no viable backtracking; likewise shrinking the
`(\d[\d,]*)` capture re-exposes a digit or comma where `\s*套` must
match, so only the full-greedy capture can succeed. -/
def nhUnitsK (r : List Char) : Option (List Char) :=
  let r1 := match r with
            | '共' :: rr => rr
            | rr => rr
  let r2 := (r1.dropWhile nhClassChar).dropWhile isPyWs
  match capDigitCommaRun r2 with
  | some (g, rest) =>
      if startsWithL ("套".toList) (rest.dropWhile isPyWs) then some g else none
  | none => none

/-- Group 1 of
`re.search(r'今日[共]?[预出售各类商品房]*\s*(\d[\d,]*)\s*套', text)`
(line 118). -/
def nhUnitsCapture (t : List Char) : Option (List Char) :=
  searchAfterLit ("今日".toList) nhUnitsK t

/-- Continuation of `面积\s*([\d,]+\.?\d*)\s*平方米` after the literal
`面积` (line 121); the same no-backtracking analysis as for
`shAreaK` applies, with the mandatory `平方米` tail. -/
def nhAreaK5 (r : List Char) : Option (List Char) :=
  match floatCap (r.dropWhile isPyWs) with
  | some (g, rest) =>
      if startsWithL ("平方米".toList) (rest.dropWhile isPyWs) then some g else none
  | none => none

/-- Group 1 of `re.search(r'面积\s*([\d,]+\.?\d*)\s*平方米', text)`. -/
def nhArea5 (t : List Char) : Option (List Char) :=
  searchAfterLit ("面积".toList) nhAreaK5 t

/-- Tail `\s*万?[㎡平]` of the pattern on line 123: a maximal whitespace
run, then either `万` followed by `㎡`/`平`, or `㎡`/`平` directly
(`万` not followed by `㎡`/`平` cannot be saved by backtracking since
`万` itself is not in `[㎡平]`). -/
def tailP6 (l : List Char) : Bool :=
  match l.dropWhile isPyWs with
  | '万' :: w => (match w with
                  | c :: _ => c = '㎡' || c = '平'
                  | [] => false)
  | c :: _ => c = '㎡' || c = '平'
  | [] => false

/-- `\d{2}` followed by the tail, at a capture split point with no
preceding dot. -/
def tryNoDot (r1rev rest : List Char) : Option (List Char) :=
  match rest with
  | d1 :: d2 :: rest' =>
      if isDigit d1 && isDigit d2 && tailP6 rest' then
        some (r1rev.reverse ++ d1 :: d2 :: [])
      else none
  | _ => none

/-- Greedy `\.?\d{2}` followed by the tail at a capture split point:
the dot variant is tried first (greedy `\.?`), then the dot-less one. -/
def tryAt (r1rev rest : List Char) : Option (List Char) :=
  match rest with
  | '.' :: d1 :: d2 :: rest' =>
      if isDigit d1 && isDigit d2 && tailP6 rest' then
        some (r1rev.reverse ++ '.' :: d1 :: d2 :: [])
      else tryNoDot r1rev ('.' :: d1 :: d2 :: rest')
  | _ => tryNoDot r1rev rest

/-- Backtracking over the greedy `[\d,]+` component: the engine tries
the maximal run first, then gives characters back from its end one at a
time, never going below one character. -/
def capTry (r1rev rest : List Char) : Option (List Char) :=
  match r1rev with
  | [] => none
  | c :: r1rev' =>
      match tryAt (c :: r1rev') rest with
      | some g => some g
      | none => capTry r1rev' (c :: rest)

/-- The lazy `.*?` of `今日.*?([\d,]+\.?\d{2})\s*万?[㎡平]` (line 123):
try every capture start position from the left, nearest to `今日`
first; a capture can only start on a `[\d,]` character. -/
def scanP6 : List Char → Option (List Char)
  | [] => none
  | c :: rest =>
      if isDigitComma c then
        match capTry ((c :: rest).takeWhile isDigitComma).reverse
                     ((c :: rest).dropWhile isDigitComma) with
        | some g => some g
        | none => scanP6 rest
      else scanP6 rest

/-- Group 1 of `re.search(r'今日.*?([\d,]+\.?\d{2})\s*万?[㎡平]', text, re.DOTALL)`. -/
def nhArea6 (t : List Char) : Option (List Char) :=
  searchAfterLit ("今日".toList) scanP6 t

/-- The raw area capture of `regex_parse_new_house`: pattern of line 121
first, then the fallback pattern of line 123. -/
def nhAreaRaw (t : List Char) : Option (List Char) :=
  match nhArea5 t with
  | some g => some g
  | none => nhArea6 t

/-- `regex_parse_new_house(text)` of lines 115-127, including the
magnitude-only ×10000 normalisation of line 126:
`area = val * 10000 if val < 10000 else val`. -/
def regex_parse_new_house (t : List Char) : Except PyErr NHCand :=
  let unitsStep : Except PyErr (Option ℚ) :=
    match nhUnitsCapture t with
    | none => Except.ok none
    | some g => match pyInt (removeCommas g) with
                | some n => Except.ok (some (n : ℚ))
                | none => Except.error PyErr.valueError
  match unitsStep with
  | Except.error e => Except.error e
  | Except.ok u =>
      match nhAreaRaw t with
      | none => Except.ok ⟨u, none⟩
      | some g =>
          match pyFloat (removeCommas g) with
          | some val => Except.ok ⟨u, some (if val < 10000 then val * 10000 else val)⟩
          | none => Except.error PyErr.valueError

/-- The units component of `regex_parse_new_house` in isolation (its
conversion never fails because the capture starts with a digit). -/
def nhUnitsVal (t : List Char) : Option ℚ :=
  match nhUnitsCapture t with
  | none => none
  | some g => match pyInt (removeCommas g) with
              | some n => some (n : ℚ)
              | none => none

-- ── Fetch tasks (lines 182-227) ─────────────────────────────────────────

/-- `any(kw in text for kw in ["套数", "成交", "昨日"])` (line 187). -/
def hasRealSH (t : List Char) : Bool :=
  isSubstr ("套数".toList) t || isSubstr ("成交".toList) t || isSubstr ("昨日".toList) t

/-- `any(kw in text for kw in ["套数", "成交", "挂牌"])` (line 208). -/
def hasRealTrade (t : List Char) : Bool :=
  isSubstr ("套数".toList) t || isSubstr ("成交".toList) t || isSubstr ("挂牌".toList) t

/-- `fetch_second_hand` (lines 182-200) on an already rendered page text
`t`.  `mm` is the oracle outcome of `parse_with_minimax(text,
"second_hand")` — `Except.error` models any raised exception (network,
auth, malformed response), caught by the `try/except` of lines 190-196.
`key` is `MINIMAX_API_KEY`; the truthiness test of line 189 is
`key != ""`.  The acceptance test of line 192 is
`result.get("units") or result.get("area")`. -/
def fetch_second_hand (key : String) (mm : Except PyErr SHCand) (t : List Char) :
    Except PyErr SHCand :=
  if hasRealSH t && !(key == "") then
    match mm with
    | Except.ok r =>
        if pyTruthy r.units || pyTruthy r.area then Except.ok r
        else regex_parse_second_hand t
    | Except.error _ => regex_parse_second_hand t
  else regex_parse_second_hand t

/-- The regex branch of `fetch_trade` (lines 219-225): `nh`, then
`listing`, then the combined dict (an exception in either conversion
propagates out of `fetch_trade`). -/
def trade_regex (t : List Char) : Except PyErr TradeCand :=
  match regex_parse_new_house t with
  | Except.error e => Except.error e
  | Except.ok nh =>
      match regex_parse_listing t with
      | Except.error e => Except.error e
      | Except.ok lt => Except.ok ⟨nh.units, nh.area, lt⟩

/-- `fetch_trade` (lines 203-227); the acceptance test of line 213 is
`any(result.get(k) for k in ["new_house_units", "listing_total"])` —
note that `new_house_area` is not consulted. -/
def fetch_trade (key : String) (mm : Except PyErr TradeCand) (t : List Char) :
    Except PyErr TradeCand :=
  if hasRealTrade t && !(key == "") then
    match mm with
    | Except.ok r =>
        if pyTruthy r.new_house_units || pyTruthy r.listing_total then Except.ok r
        else trade_regex t
    | Except.error _ => trade_regex t
  else trade_regex t

-- ── Model-response cleaning in `parse_with_minimax` (lines 172-178) ─────

/-- One scanning pass of `re.sub(r"```json\s*|\s*```", "", raw)`: at
each position the engine first tries the alternative ` ```json\s* `,
then `\s*``` ` (a whitespace run is part of a match of the second
alternative only when backticks directly follow it); matched spans are
removed and scanning resumes after them.  The fuel argument only makes
the recursion structural: every removed span is nonempty, so any fuel
of at least the input length computes the full substitution. -/
def stripFencesAux : ℕ → List Char → List Char
  | 0, l => l
  | _, [] => []
  | fuel + 1, c :: rest =>
      match stripPrefixL ("```json".toList) (c :: rest) with
      | some r => stripFencesAux fuel (r.dropWhile isPyWs)
      | none =>
          match stripPrefixL ("```".toList) ((c :: rest).dropWhile isPyWs) with
          | some r => stripFencesAux fuel r
          | none => c :: stripFencesAux fuel rest

/-- `re.sub(r"```json\s*|\s*```", "", raw)` (line 174). -/
def stripFences (l : List Char) : List Char := stripFencesAux (l.length + 1) l

/-- Python `str.strip()`. -/
def pyStrip (l : List Char) : List Char :=
  ((l.dropWhile isPyWs).reverse.dropWhile isPyWs).reverse

/-- The brace-span search of line 175 (backslash-x7b, dot-star,
backslash-x7d under DOTALL): with the greedy dot-star this is the span
from the first opening brace to the last closing brace (when a closing
brace occurs after the first opening one), not the first balanced
object. -/
def extractGreedy (l : List Char) : Option (List Char) :=
  let a := l.dropWhile (fun c => !(c = '\x7b'))
  let b := (a.reverse.dropWhile (fun c => !(c = '\x7d'))).reverse
  if a.isEmpty || b.isEmpty then none else some b

/-- The string handed to `json.loads` by `parse_with_minimax`
(lines 172-178): clean the fences, strip, then either the greedy
`{...}` span or — when the search fails — the whole cleaned text. -/
def minimaxHandToLoads (raw : List Char) : List Char :=
  let r := pyStrip (stripFences raw)
  match extractGreedy r with
  | some g => g
  | none => r

/-- Modelled from the spec: the first balanced brace-delimited object
of a text, the extraction that §4.1(b) of the spec claims
`parse_with_minimax` performs.  Scans from the first opening brace,
tracking brace depth, and stops at the brace that closes it. -/
def balScan : List Char → ℕ → List Char → Option (List Char)
  | [], _, _ => none
  | c :: r, d, acc =>
      if c = '\x7b' then balScan r (d + 1) (c :: acc)
      else if c = '\x7d' then
        (if d = 1 then some (c :: acc).reverse else balScan r (d - 1) (c :: acc))
      else balScan r d (c :: acc)

/-- Modelled from the spec: first balanced `{...}` object. -/
def firstBalanced (l : List Char) : Option (List Char) :=
  match l.dropWhile (fun c => !(c = '\x7b')) with
  | [] => none
  | a => balScan a 0 []

-- ── Daily record and history store (lines 230-312) ──────────────────────

/-- One persisted metric group of the daily record (lines 291-302);
`avgArea` is the derived `avg_area(units, area)`. -/
structure MetricGroup where
  units : Option ℚ
  area : Option ℚ
  avgArea : Option ℚ
  note : String
deriving DecidableEq

/-- The listing group of the daily record (lines 303-306). -/
structure ListingGroup where
  total : Option ℚ
  note : String
deriving DecidableEq

/-- The persisted daily record (lines 288-307). -/
structure DailyRecord where
  date : String
  scraped_at : String
  second_hand : MetricGroup
  new_house : MetricGroup
  listing : ListingGroup
deriving DecidableEq

/-- `sh.get(...)` after the `try/except` of lines 269-272: an exception
in `fetch_second_hand` leaves `sh = {}`, whose `.get` yields `None`. -/
def getSH : Except PyErr SHCand → SHCand
  | Except.ok c => c
  | Except.error _ => ⟨none, none⟩

/-- `trade.get(...)` after the `try/except` of lines 277-280. -/
def getTrade : Except PyErr TradeCand → TradeCand
  | Except.ok c => c
  | Except.error _ => ⟨none, none, none⟩

/-- Assembly of `record` in `main` (lines 282-307) from the two fetch
outcomes. -/
def buildRecord (today now : String) (shO : Except PyErr SHCand)
    (trO : Except PyErr TradeCand) : DailyRecord :=
  let sh := getSH shO
  let tr := getTrade trO
  { date := today
    scraped_at := now
    second_hand := ⟨sh.units, sh.area, avg_area sh.units sh.area, "昨日网签成交（T+1）"⟩
    new_house := ⟨tr.new_house_units, tr.new_house_area,
                  avg_area tr.new_house_units tr.new_house_area, "今日成交（当日累计）"⟩
    listing := ⟨tr.listing_total, "二手房出售挂牌套数"⟩ }

/-- Order on records used by `history.sort(key=lambda x: x["date"])`:
lexicographic comparison of the ISO date strings by code point, which
is Python's `str` comparison. -/
def recLe (a b : DailyRecord) : Prop := a.date.toList ≤ b.date.toList

instance : DecidableRel recLe := fun a b =>
  inferInstanceAs (Decidable (a.date.toList ≤ b.date.toList))

instance : IsTotal DailyRecord recLe := ⟨fun a b => le_total a.date.toList b.date.toList⟩

instance : IsTrans DailyRecord recLe := ⟨fun _ _ _ h1 h2 => le_trans h1 h2⟩

/-- The upsert step of `main` (lines 309-311): drop any record with
today's date, append the new record, sort ascending by date.  A stable
insertion sort computes the same list as Python's stable `list.sort`. -/
def upsertStep (history : List DailyRecord) (today : String) (rec : DailyRecord) :
    List DailyRecord :=
  List.insertionSort recLe ((history.filter (fun r => !(r.date == today))) ++ [rec])

/-- Outcome of one run of `main`: either the early return of line 262
(store untouched) or a store saved by `save_history` (line 312).
`main` has no failure exit for a missing `MINIMAX_API_KEY`. -/
inductive RunOutcome where
  | skipped
  | saved (store : List DailyRecord)
deriving DecidableEq

/-- `main` (lines 254-315) over already-obtained fetch outcomes: the
skip check of lines 260-262 (`force` is `"--force" in sys.argv`), then
record assembly and the upsert of lines 309-312. -/
def mainRun (history : List DailyRecord) (today now : String) (force : Bool)
    (shO : Except PyErr SHCand) (trO : Except PyErr TradeCand) : RunOutcome :=
  if history.any (fun r => r.date == today) && !force then RunOutcome.skipped
  else RunOutcome.saved (upsertStep history today (buildRecord today now shO trO))

/-- The persisted store after a run: unchanged on skip. -/
def storeAfter (history : List DailyRecord) (today now : String) (force : Bool)
    (shO : Except PyErr SHCand) (trO : Except PyErr TradeCand) : List DailyRecord :=
  match mainRun history today now force shO trO with
  | RunOutcome.skipped => history
  | RunOutcome.saved l => l

-- ═══════════════════════════════ Lemmas ═════════════════════════════════

theorem searchAfterLit_some {α} {lit : List Char} {k : List Char → Option α} :
    ∀ {t : List Char} {v : α}, searchAfterLit lit k t = some v → ∃ s, k s = some v := by
  intro t
  induction t with
  | nil =>
      intro v h
      unfold searchAfterLit at h
      split at h
      · exact ⟨_, h⟩
      · cases h
  | cons c rest ih =>
      intro v h
      unfold searchAfterLit at h
      split at h
      · split at h
        · rename_i heq; cases h; exact ⟨_, heq⟩
        · exact ih h
      · exact ih h

theorem mem_takeWhile_sat {p : Char → Bool} {l g : List Char} (h : g = l.takeWhile p) :
    g.all p = true := by
  subst h
  rw [List.all_eq_true]
  intro x hx
  exact List.mem_takeWhile_imp hx

theorem capDigitCommaRun_shape {l g rest : List Char}
    (h : capDigitCommaRun l = some (g, rest)) :
    ∃ c r, g = c :: r ∧ isDigit c = true ∧ r.all isDigitComma = true := by
  unfold capDigitCommaRun at h
  split at h
  · cases h
  · rename_i c r
    split at h
    · cases h
      exact ⟨c, _, rfl, by assumption, mem_takeWhile_sat rfl⟩
    · cases h

theorem floatCap_shape {l g rest : List Char} (h : floatCap l = some (g, rest)) :
    ∃ r1 tl, g = r1 ++ tl ∧ r1 ≠ [] ∧ r1.all isDigitComma = true ∧
      (tl = [] ∨ ∃ ds, tl = '.' :: ds ∧ ds.all isDigit = true) := by
  unfold floatCap at h
  split at h
  · simp only [] at h
    split at h
    · cases h
    · cases h
      refine ⟨l.takeWhile isDigitComma, _, rfl, ?_, mem_takeWhile_sat rfl,
        Or.inr ⟨_, rfl, mem_takeWhile_sat rfl⟩⟩
      rename_i hne
      simp only [List.isEmpty_iff] at hne
      simpa using hne
  · simp only [] at h
    split at h
    · cases h
    · cases h
      refine ⟨l.takeWhile isDigitComma, [], by simp, ?_, mem_takeWhile_sat rfl, Or.inl rfl⟩
      rename_i hne
      simp only [List.isEmpty_iff] at hne
      simpa using hne

theorem digit_not_comma {c : Char} (h : isDigit c = true) : (!(c = ',')) = true := by
  simp only [Bool.not_eq_true', decide_eq_false_iff_not]
  intro hc
  subst hc
  exact absurd h (by decide)

theorem removeCommas_all_digit {l : List Char} (h : l.all isDigitComma = true) :
    (removeCommas l).all isDigit = true := by
  rw [List.all_eq_true] at h ⊢
  intro x hx
  unfold removeCommas at hx
  rw [List.mem_filter] at hx
  have hdc := h x hx.1
  have hnc := hx.2
  simp only [isDigitComma, Bool.or_eq_true] at hdc
  rcases hdc with hd | hc
  · exact hd
  · rw [hc] at hnc
    simp at hnc

theorem removeCommas_of_all_digit {l : List Char} (h : l.all isDigit = true) :
    removeCommas l = l := by
  unfold removeCommas
  rw [List.filter_eq_self]
  intro a ha
  rw [List.all_eq_true] at h
  exact digit_not_comma (h a ha)

theorem takeWhile_of_all {p : Char → Bool} {l : List Char} (h : l.all p = true) :
    l.takeWhile p = l := by
  induction l with
  | nil => rfl
  | cons c r ih =>
      rw [List.all_cons, Bool.and_eq_true] at h
      rw [List.takeWhile_cons, if_pos h.1, ih h.2]

theorem dropWhile_of_all {p : Char → Bool} {l : List Char} (h : l.all p = true) :
    l.dropWhile p = [] := by
  induction l with
  | nil => rfl
  | cons c r ih =>
      rw [List.all_cons, Bool.and_eq_true] at h
      rw [List.dropWhile_cons, if_pos h.1, ih h.2]

theorem takeWhile_append_stop {p : Char → Bool} {A B : List Char} {c : Char}
    (hA : A.all p = true) (hc : p c = false) :
    (A ++ c :: B).takeWhile p = A ∧ (A ++ c :: B).dropWhile p = c :: B := by
  induction A with
  | nil => simp [List.takeWhile_cons, List.dropWhile_cons, hc]
  | cons a A' ih =>
      rw [List.all_cons, Bool.and_eq_true] at hA
      obtain ⟨h1, h2⟩ := ih hA.2
      constructor
      · rw [List.cons_append, List.takeWhile_cons, if_pos hA.1, h1]
      · rw [List.cons_append, List.dropWhile_cons, if_pos hA.1, h2]

theorem pyInt_of_digits {l : List Char} (h1 : l ≠ []) (h2 : l.all isDigit = true) :
    pyInt l = some ((digitsToNat l : ℤ)) := by
  unfold pyInt
  rw [if_pos]
  simp [List.isEmpty_iff, h1, h2]

theorem pyInt_units_capture {g : List Char}
    (hs : ∃ c r, g = c :: r ∧ isDigit c = true ∧ r.all isDigitComma = true) :
    ∃ n, pyInt (removeCommas g) = some n := by
  obtain ⟨c, r, rfl, hc, hr⟩ := hs
  have hrc : removeCommas (c :: r) = c :: removeCommas r := by
    simp [removeCommas, List.filter_cons, digit_not_comma hc]
  rw [hrc]
  refine ⟨_, pyInt_of_digits (by simp) ?_⟩
  rw [List.all_cons, Bool.and_eq_true]
  exact ⟨hc, removeCommas_all_digit hr⟩

theorem pyFloat_digits {D1 : List Char} (h1 : D1.all isDigit = true) (hne : D1 ≠ []) :
    pyFloat D1 = some ((digitsToNat D1 : ℚ)) := by
  unfold pyFloat
  simp only []
  rw [takeWhile_of_all h1, dropWhile_of_all h1]
  simp [List.isEmpty_iff, hne]

theorem pyFloat_digits_dot {D1 ds : List Char} (h1 : D1.all isDigit = true)
    (h2 : ds.all isDigit = true) (hne : D1 ≠ [] ∨ ds ≠ []) :
    ∃ v, pyFloat (D1 ++ '.' :: ds) = some v := by
  unfold pyFloat
  simp only []
  obtain ⟨ht, hdw⟩ := takeWhile_append_stop h1 (show isDigit '.' = false by decide)
  rw [ht, hdw]
  simp only []
  rw [takeWhile_of_all h2, dropWhile_of_all h2]
  rcases hne with hne | hne <;>
    simp [List.isEmpty_iff, hne]

theorem mem_removeCommas_of_digit {l : List Char} {x : Char} (hx : x ∈ l)
    (hxd : isDigit x = true) : x ∈ removeCommas l := by
  unfold removeCommas
  rw [List.mem_filter]
  exact ⟨hx, digit_not_comma hxd⟩

theorem pyFloat_shape_success {g : List Char}
    (hs : ∃ r1 tl, g = r1 ++ tl ∧ r1 ≠ [] ∧ r1.all isDigitComma = true ∧
          (tl = [] ∨ ∃ ds, tl = '.' :: ds ∧ ds.all isDigit = true))
    (hd : g.any isDigit = true) :
    ∃ v, pyFloat (removeCommas g) = some v := by
  obtain ⟨r1, tl, rfl, hne, hall, htl⟩ := hs
  have hD1 : (removeCommas r1).all isDigit = true := removeCommas_all_digit hall
  rcases htl with rfl | ⟨ds, rfl, hds⟩
  · rw [List.append_nil] at hd ⊢
    have hne2 : removeCommas r1 ≠ [] := by
      rw [List.any_eq_true] at hd
      obtain ⟨x, hx, hxd⟩ := hd
      intro hnil
      have hmem := mem_removeCommas_of_digit hx hxd
      rw [hnil] at hmem
      cases hmem
    exact ⟨_, pyFloat_digits hD1 hne2⟩
  · have hrc : removeCommas (r1 ++ '.' :: ds) = removeCommas r1 ++ '.' :: ds := by
      unfold removeCommas
      rw [List.filter_append, List.filter_cons]
      have hdot : (!('.' = ',')) = true := by decide
      rw [if_pos hdot]
      have hself : List.filter (fun c => !(c = ',')) ds = ds :=
        removeCommas_of_all_digit hds
      rw [hself]
    rw [hrc]
    refine pyFloat_digits_dot hD1 hds ?_
    rw [List.any_eq_true] at hd
    obtain ⟨x, hx, hxd⟩ := hd
    rw [List.mem_append] at hx
    rcases hx with hx | hx
    · left
      intro hnil
      have hmem := mem_removeCommas_of_digit hx hxd
      rw [hnil] at hmem
      cases hmem
    · right
      rcases hx with _ | hx
      · exact absurd hxd (by decide)
      · intro hnil
        rename_i hmem
        rw [hnil] at hmem
        cases hmem

theorem shUnitsK_shape {r g : List Char} (h : shUnitsK r = some g) :
    ∃ c rr, g = c :: rr ∧ isDigit c = true ∧ rr.all isDigitComma = true := by
  unfold shUnitsK at h
  cases hc : capDigitCommaRun (sepRun r) with
  | none => rw [hc] at h; cases h
  | some p =>
      obtain ⟨g2, rest2⟩ := p
      rw [hc] at h
      cases h
      exact capDigitCommaRun_shape hc

theorem shAreaK_shape {r g : List Char} (h : shAreaK r = some g) :
    ∃ r1 tl, g = r1 ++ tl ∧ r1 ≠ [] ∧ r1.all isDigitComma = true ∧
      (tl = [] ∨ ∃ ds, tl = '.' :: ds ∧ ds.all isDigit = true) := by
  unfold shAreaK at h
  cases hc : floatCap (sepRun r) with
  | none => rw [hc] at h; cases h
  | some p =>
      obtain ⟨g2, rest2⟩ := p
      rw [hc] at h
      cases h
      exact floatCap_shape hc

theorem nhUnitsK_shape {r g : List Char} (h : nhUnitsK r = some g) :
    ∃ c rr, g = c :: rr ∧ isDigit c = true ∧ rr.all isDigitComma = true := by
  unfold nhUnitsK at h
  simp only [] at h
  split at h
  · rename_i g2 rest2 heq
    split at h
    · cases h
      exact capDigitCommaRun_shape heq
    · cases h
  · cases h

theorem nhAreaK5_shape {r g : List Char} (h : nhAreaK5 r = some g) :
    ∃ r1 tl, g = r1 ++ tl ∧ r1 ≠ [] ∧ r1.all isDigitComma = true ∧
      (tl = [] ∨ ∃ ds, tl = '.' :: ds ∧ ds.all isDigit = true) := by
  unfold nhAreaK5 at h
  split at h
  · rename_i g2 rest2 heq
    split at h
    · cases h
      exact floatCap_shape heq
    · cases h
  · cases h

theorem tryNoDot_shape {r1rev rest g : List Char} (h : tryNoDot r1rev rest = some g) :
    ∃ d1 d2, g = r1rev.reverse ++ d1 :: d2 :: [] ∧ isDigit d1 = true ∧ isDigit d2 = true := by
  unfold tryNoDot at h
  split at h
  · rename_i d1 d2 rest'
    split at h
    · cases h
      rename_i hcond
      rw [Bool.and_eq_true, Bool.and_eq_true] at hcond
      exact ⟨d1, d2, rfl, hcond.1.1, hcond.1.2⟩
    · cases h
  · cases h

theorem tryAt_shape {r1rev rest g : List Char} (h : tryAt r1rev rest = some g) :
    (∃ d1 d2, g = r1rev.reverse ++ d1 :: d2 :: [] ∧ isDigit d1 = true ∧ isDigit d2 = true) ∨
    (∃ d1 d2, g = r1rev.reverse ++ '.' :: d1 :: d2 :: [] ∧
      isDigit d1 = true ∧ isDigit d2 = true) := by
  unfold tryAt at h
  split at h
  · rename_i d1 d2 rest'
    split at h
    · cases h
      rename_i hcond
      rw [Bool.and_eq_true, Bool.and_eq_true] at hcond
      exact Or.inr ⟨d1, d2, rfl, hcond.1.1, hcond.1.2⟩
    · exact Or.inl (tryNoDot_shape h)
  · exact Or.inl (tryNoDot_shape h)

theorem capTry_shape {r1rev rest g : List Char} (hall : r1rev.all isDigitComma = true)
    (h : capTry r1rev rest = some g) :
    (∃ r1 tl, g = r1 ++ tl ∧ r1 ≠ [] ∧ r1.all isDigitComma = true ∧
      (tl = [] ∨ ∃ ds, tl = '.' :: ds ∧ ds.all isDigit = true)) ∧ g.any isDigit = true := by
  induction r1rev generalizing rest with
  | nil => unfold capTry at h; cases h
  | cons c r1rev' ih =>
      unfold capTry at h
      split at h
      · cases h
        rename_i heq
        rcases tryAt_shape heq with ⟨d1, d2, rfl, h1, h2⟩ | ⟨d1, d2, rfl, h1, h2⟩
        · constructor
          · refine ⟨(c :: r1rev').reverse ++ d1 :: d2 :: [], [], by simp, by simp, ?_, Or.inl rfl⟩
            rw [List.all_append]
            rw [Bool.and_eq_true]
            constructor
            · rw [List.all_reverse]; exact hall
            · simp [isDigitComma, h1, h2]
          · rw [List.any_eq_true]
            exact ⟨d1, by simp, h1⟩
        · constructor
          · refine ⟨(c :: r1rev').reverse, '.' :: d1 :: d2 :: [], rfl, by simp, ?_,
              Or.inr ⟨_, rfl, by simp [h1, h2]⟩⟩
            rw [List.all_reverse]
            exact hall
          · rw [List.any_eq_true]
            exact ⟨d1, by simp, h1⟩
      · have hall' : r1rev'.all isDigitComma = true := by
          rw [List.all_cons, Bool.and_eq_true] at hall
          exact hall.2
        exact ih hall' h

theorem scanP6_shape {l g : List Char} (h : scanP6 l = some g) :
    (∃ r1 tl, g = r1 ++ tl ∧ r1 ≠ [] ∧ r1.all isDigitComma = true ∧
      (tl = [] ∨ ∃ ds, tl = '.' :: ds ∧ ds.all isDigit = true)) ∧ g.any isDigit = true := by
  induction l with
  | nil => unfold scanP6 at h; cases h
  | cons c rest ih =>
      unfold scanP6 at h
      split at h
      · split at h
        · cases h
          rename_i heq
          refine capTry_shape ?_ heq
          rw [List.all_reverse]
          exact mem_takeWhile_sat rfl
        · exact ih h
      · exact ih h

theorem nhArea6_success {t g : List Char} (h : nhArea6 t = some g) :
    ∃ v, pyFloat (removeCommas g) = some v := by
  obtain ⟨s, hs⟩ := searchAfterLit_some h
  obtain ⟨hshape, hany⟩ := scanP6_shape hs
  exact pyFloat_shape_success hshape hany

theorem shUnits_conv {t g : List Char} (h : shUnitsCapture t = some g) :
    ∃ n, pyInt (removeCommas g) = some n := by
  obtain ⟨s, hs⟩ := searchAfterLit_some h
  exact pyInt_units_capture (shUnitsK_shape hs)

theorem nhUnits_conv {t g : List Char} (h : nhUnitsCapture t = some g) :
    ∃ n, pyInt (removeCommas g) = some n := by
  obtain ⟨s, hs⟩ := searchAfterLit_some h
  exact pyInt_units_capture (nhUnitsK_shape hs)

theorem shArea_error_nodigit {t g : List Char} (h : shAreaCapture t = some g)
    (he : pyFloat (removeCommas g) = none) : g.any isDigit = false := by
  obtain ⟨s, hs⟩ := searchAfterLit_some h
  by_contra hne
  rw [Bool.not_eq_false] at hne
  obtain ⟨v, hv⟩ := pyFloat_shape_success (shAreaK_shape hs) hne
  rw [he] at hv
  cases hv

theorem nhArea_error_nodigit {t g : List Char} (h : nhAreaRaw t = some g)
    (he : pyFloat (removeCommas g) = none) : g.any isDigit = false := by
  unfold nhAreaRaw at h
  cases h5 : nhArea5 t with
  | some g5 =>
      rw [h5] at h
      cases h
      obtain ⟨s, hs⟩ := searchAfterLit_some h5
      by_contra hne
      rw [Bool.not_eq_false] at hne
      obtain ⟨v, hv⟩ := pyFloat_shape_success (nhAreaK5_shape hs) hne
      rw [he] at hv
      cases hv
  | none =>
      rw [h5] at h
      obtain ⟨v, hv⟩ := nhArea6_success h
      rw [he] at hv
      cases hv

theorem rpsh_error {t : List Char} {e : PyErr}
    (h : regex_parse_second_hand t = Except.error e) :
    ∃ g, shAreaCapture t = some g ∧ g.any isDigit = false := by
  unfold regex_parse_second_hand at h
  simp only [] at h
  cases hu : shUnitsCapture t with
  | none =>
      rw [hu] at h
      simp only [] at h
      cases ha : shAreaCapture t with
      | none => rw [ha] at h; simp only [] at h; cases h
      | some g =>
          rw [ha] at h
          simp only [] at h
          cases hf : pyFloat (removeCommas g) with
          | some v => rw [hf] at h; simp only [] at h; cases h
          | none => exact ⟨g, rfl, shArea_error_nodigit ha hf⟩
  | some gu =>
      rw [hu] at h
      simp only [] at h
      obtain ⟨n, hn⟩ := shUnits_conv hu
      rw [hn] at h
      simp only [] at h
      cases ha : shAreaCapture t with
      | none => rw [ha] at h; simp only [] at h; cases h
      | some g =>
          rw [ha] at h
          simp only [] at h
          cases hf : pyFloat (removeCommas g) with
          | some v => rw [hf] at h; simp only [] at h; cases h
          | none => exact ⟨g, rfl, shArea_error_nodigit ha hf⟩

theorem rpnh_error {t : List Char} {e : PyErr}
    (h : regex_parse_new_house t = Except.error e) :
    ∃ g, nhAreaRaw t = some g ∧ g.any isDigit = false := by
  unfold regex_parse_new_house at h
  simp only [] at h
  cases hu : nhUnitsCapture t with
  | none =>
      rw [hu] at h
      simp only [] at h
      cases ha : nhAreaRaw t with
      | none => rw [ha] at h; simp only [] at h; cases h
      | some g =>
          rw [ha] at h
          simp only [] at h
          cases hf : pyFloat (removeCommas g) with
          | some v => rw [hf] at h; simp only [] at h; cases h
          | none => exact ⟨g, rfl, nhArea_error_nodigit ha hf⟩
  | some gu =>
      rw [hu] at h
      simp only [] at h
      obtain ⟨n, hn⟩ := nhUnits_conv hu
      rw [hn] at h
      simp only [] at h
      cases ha : nhAreaRaw t with
      | none => rw [ha] at h; simp only [] at h; cases h
      | some g =>
          rw [ha] at h
          simp only [] at h
          cases hf : pyFloat (removeCommas g) with
          | some v => rw [hf] at h; simp only [] at h; cases h
          | none => exact ⟨g, rfl, nhArea_error_nodigit ha hf⟩

theorem listingTryLen_digits {n : ℕ} {l g after : List Char} (hn : n ≠ 0)
    (h : listingTryLen n l = some (g, after)) : g ≠ [] ∧ g.all isDigit = true := by
  unfold listingTryLen at h
  split at h
  · rename_i hcond
    rw [Bool.and_eq_true, decide_eq_true_eq] at hcond
    split at h
    · cases h
      refine ⟨?_, hcond.2⟩
      intro hnil
      rw [hnil] at hcond
      exact hn hcond.1.symm
    · cases h
  · cases h

theorem listingAt_digits {l g after : List Char} (h : listingAt l = some (g, after)) :
    g ≠ [] ∧ g.all isDigit = true := by
  unfold listingAt at h
  split at h
  · rename_i heq
    cases h
    exact listingTryLen_digits (by decide) heq
  · split at h
    · rename_i heq
      cases h
      exact listingTryLen_digits (by decide) heq
    · exact listingTryLen_digits (by decide) h

theorem findallAux_digits : ∀ (fuel : ℕ) (l : List Char) {g : List Char},
    g ∈ findallAux fuel l → g ≠ [] ∧ g.all isDigit = true := by
  intro fuel
  induction fuel with
  | zero =>
      intro l g hg
      simp [findallAux] at hg
  | succ f ih =>
      intro l g hg
      cases l with
      | nil => cases hg
      | cons c rest =>
          unfold findallAux at hg
          split at hg
          · rename_i g' after heq
            cases hg with
            | head => exact listingAt_digits heq
            | tail _ hg => exact ih after hg
          · exact ih rest hg

theorem intsOfCaps_ok : ∀ {gs : List (List Char)},
    (∀ g ∈ gs, g ≠ [] ∧ g.all isDigit = true) → ∃ ns, intsOfCaps gs = Except.ok ns := by
  intro gs
  induction gs with
  | nil => exact fun _ => ⟨[], rfl⟩
  | cons g gs' ih =>
      intro hall
      have hg := hall g (by simp)
      obtain ⟨ns', hns⟩ := ih (fun x hx => hall x (by simp [hx]))
      refine ⟨(digitsToNat g : ℤ) :: ns', ?_⟩
      unfold intsOfCaps
      rw [pyInt_of_digits hg.1 hg.2, hns]

theorem rpsh_units_none {t : List Char} {c : SHCand}
    (h : regex_parse_second_hand t = Except.ok c) (hu : shUnitsCapture t = none) :
    c.units = none := by
  unfold regex_parse_second_hand at h
  simp only [] at h
  rw [hu] at h
  simp only [] at h
  cases ha : shAreaCapture t with
  | none =>
      rw [ha] at h
      simp only [] at h
      cases h
      rfl
  | some g =>
      rw [ha] at h
      simp only [] at h
      cases hf : pyFloat (removeCommas g) with
      | some v =>
          rw [hf] at h
          simp only [] at h
          cases h
          rfl
      | none =>
          rw [hf] at h
          simp only [] at h
          cases h

theorem rpsh_area_none {t : List Char} {c : SHCand}
    (h : regex_parse_second_hand t = Except.ok c) (ha : shAreaCapture t = none) :
    c.area = none := by
  unfold regex_parse_second_hand at h
  simp only [] at h
  cases hu : shUnitsCapture t with
  | none =>
      rw [hu] at h
      simp only [] at h
      rw [ha] at h
      simp only [] at h
      cases h
      rfl
  | some gu =>
      rw [hu] at h
      simp only [] at h
      obtain ⟨n, hn⟩ := shUnits_conv hu
      rw [hn] at h
      simp only [] at h
      rw [ha] at h
      simp only [] at h
      cases h
      rfl

theorem rpnh_units_none {t : List Char} {c : NHCand}
    (h : regex_parse_new_house t = Except.ok c) (hu : nhUnitsCapture t = none) :
    c.units = none := by
  unfold regex_parse_new_house at h
  simp only [] at h
  rw [hu] at h
  simp only [] at h
  cases ha : nhAreaRaw t with
  | none =>
      rw [ha] at h
      simp only [] at h
      cases h
      rfl
  | some g =>
      rw [ha] at h
      simp only [] at h
      cases hf : pyFloat (removeCommas g) with
      | some v =>
          rw [hf] at h
          simp only [] at h
          cases h
          rfl
      | none =>
          rw [hf] at h
          simp only [] at h
          cases h

theorem rpnh_area_none {t : List Char} {c : NHCand}
    (h : regex_parse_new_house t = Except.ok c) (ha : nhAreaRaw t = none) :
    c.area = none := by
  unfold regex_parse_new_house at h
  simp only [] at h
  cases hu : nhUnitsCapture t with
  | none =>
      rw [hu] at h
      simp only [] at h
      rw [ha] at h
      simp only [] at h
      cases h
      rfl
  | some gu =>
      rw [hu] at h
      simp only [] at h
      obtain ⟨n, hn⟩ := nhUnits_conv hu
      rw [hn] at h
      simp only [] at h
      rw [ha] at h
      simp only [] at h
      cases h
      rfl

theorem rpl_nomatch {t : List Char} (h : findallListing t = []) :
    regex_parse_listing t = Except.ok none := by
  unfold regex_parse_listing
  rw [h]

theorem rpnh_ok_area {t g : List Char} {v : ℚ} (ha : nhAreaRaw t = some g)
    (hf : pyFloat (removeCommas g) = some v) :
    regex_parse_new_house t
      = Except.ok ⟨nhUnitsVal t, some (if v < 10000 then v * 10000 else v)⟩ := by
  unfold regex_parse_new_house nhUnitsVal
  simp only []
  cases hu : nhUnitsCapture t with
  | none =>
      simp only []
      rw [ha]
      simp only []
      rw [hf]
  | some gu =>
      obtain ⟨n, hn⟩ := nhUnits_conv hu
      simp only []
      rw [hn]
      simp only []
      rw [ha]
      simp only []
      rw [hf]

-- ═══════════════════════════ Claim theorems ═════════════════════════════

/-- Claim C1, counterexample.  The claim says `avg_area` is present
whenever `units > 0` and `area` is present; but for `units = 5`,
`area = 0` (present, zero — Python-falsy) the code returns `None`,
while the claim demands `round(0/5, 2) = 0.0`. -/
theorem claim_C1_counterexample :
    avg_area (some 5) (some 0) = none ∧ (0 : ℚ) < 5 ∧ (some (0 : ℚ)).isSome = true :=
  ⟨by decide, by norm_num, rfl⟩

theorem avg_area_some {uv av : ℚ} (huv : 0 < uv) (hav : av ≠ 0) :
    avg_area (some uv) (some av) = some (roundTo2 (av / uv)) := by
  unfold avg_area
  rw [if_pos]
  · rfl
  · simp only [pyTruthy, Bool.and_eq_true, decide_eq_true_eq, Option.getD_some,
      Bool.not_eq_true', decide_eq_false_iff_not]
    exact ⟨⟨ne_of_gt huv, hav⟩, huv⟩

/-- Claim C1 (amended): `avg_area(units, area)` is present iff `units`
is present and positive and `area` is present and nonzero (Python
truthiness makes a present zero area yield absence); in that case it
equals `round(area/units, 2)`; the computation is total (never
raises). -/
theorem claim_C1 (u a : Option ℚ) :
    ((avg_area u a).isSome = true ↔
      ∃ uv av, u = some uv ∧ a = some av ∧ 0 < uv ∧ av ≠ 0)
    ∧ (∀ uv av, u = some uv → a = some av → 0 < uv → av ≠ 0 →
        avg_area u a = some (roundTo2 (av / uv))) := by
  refine ⟨⟨?_, ?_⟩, ?_⟩
  · intro h
    unfold avg_area at h
    by_cases hc : (pyTruthy u && pyTruthy a && decide (0 < u.getD 0)) = true
    · cases u with
      | none => simp [pyTruthy] at hc
      | some uv =>
          cases a with
          | none => simp [pyTruthy] at hc
          | some av =>
              simp only [pyTruthy, Bool.and_eq_true, Bool.not_eq_true',
                decide_eq_false_iff_not, decide_eq_true_eq, Option.getD_some] at hc
              exact ⟨uv, av, rfl, rfl, hc.2, hc.1.2⟩
    · rw [if_neg hc] at h
      cases h
  · rintro ⟨uv, av, rfl, rfl, huv, hav⟩
    rw [avg_area_some huv hav]
    rfl
  · intro uv av hu ha huv hav
    subst hu
    subst ha
    exact avg_area_some huv hav

/-- Claim C1, witness: the spec's own scenario `units = 527`,
`area = 42244.63`. -/
theorem claim_C1_witness :
    avg_area (some 527) (some (4224463/100)) = some (roundTo2 ((4224463/100) / 527)) :=
  (claim_C1 (some 527) (some (4224463/100))).2 527 (4224463/100) rfl rfl
    (by norm_num) (by norm_num)

/-- Claim C4, counterexample.  A model candidate with `units = 0` and
`area = 0` has both numeric fields non-absent, so the claim says the
chain stops and returns it; but the code's truthiness test
`result.get("units") or result.get("area")` treats `0` as falsy and
falls through to the regex strategy. -/
theorem claim_C4_counterexample :
    fetch_second_hand ("k") (Except.ok ⟨some 0, some 0⟩) ("套数".toList)
        ≠ Except.ok (⟨some 0, some 0⟩ : SHCand)
    ∧ (some (0 : ℚ)).isSome = true ∧ (some (0 : ℚ)).isSome = true := by
  refine ⟨?_, rfl, rfl⟩
  decide

/-- Claim C4 (amended): when the model strategy returns a candidate (and
was reachable: key set, real page content), the chain stops and returns
that candidate iff the checked fields are Python-truthy — present and
nonzero —, and otherwise falls through to the regex strategy; the
checked fields are `units`/`area` for the second-hand group but only
`new_house_units`/`listing_total` for the trade group (`new_house_area`
is not consulted).  Truthiness is non-absence plus nonzeroness. -/
theorem claim_C4 :
    (∀ x : Option ℚ, pyTruthy x = true ↔ x ≠ none ∧ x ≠ some 0)
    ∧ (∀ (key : String) (t : List Char) (cand : SHCand),
        (key == "") = false → hasRealSH t = true →
        fetch_second_hand key (Except.ok cand) t =
          if pyTruthy cand.units || pyTruthy cand.area then Except.ok cand
          else regex_parse_second_hand t)
    ∧ (∀ (key : String) (t : List Char) (cand : TradeCand),
        (key == "") = false → hasRealTrade t = true →
        fetch_trade key (Except.ok cand) t =
          if pyTruthy cand.new_house_units || pyTruthy cand.listing_total then Except.ok cand
          else trade_regex t) := by
  refine ⟨?_, ?_, ?_⟩
  · intro x
    cases x with
    | none => simp [pyTruthy]
    | some v =>
        simp only [pyTruthy, Bool.not_eq_true', decide_eq_false_iff_not]
        constructor
        · intro hv
          exact ⟨Option.some_ne_none v, by simpa using hv⟩
        · intro hv
          simpa using hv.2
  · intro key t cand hk ht
    unfold fetch_second_hand
    rw [if_pos]
    rw [ht, hk]
    rfl
  · intro key t cand hk ht
    unfold fetch_trade
    rw [if_pos]
    rw [ht, hk]
    rfl

/-- Claim C4, witness: a truthy model candidate is returned as-is. -/
theorem claim_C4_witness :
    fetch_second_hand ("k") (Except.ok ⟨some 1, none⟩) ("套数".toList)
      = Except.ok (⟨some 1, none⟩ : SHCand) := by
  have h := (claim_C4.2.1) "k" ("套数".toList) ⟨some 1, none⟩ (by decide) (by decide)
  rw [h]
  decide

/-- Claim C5 (confirmed): whenever the model strategy raises, the
failure is caught inside the group's fetch and the final candidate is
exactly the regex strategy's output on the same page text. -/
theorem claim_C5 :
    (∀ (key : String) (t : List Char) (e : PyErr),
        fetch_second_hand key (Except.error e) t = regex_parse_second_hand t)
    ∧ (∀ (key : String) (t : List Char) (e : PyErr),
        fetch_trade key (Except.error e) t = trade_regex t) := by
  constructor
  · intro key t e
    unfold fetch_second_hand
    split
    · rfl
    · rfl
  · intro key t e
    unfold fetch_trade
    split
    · rfl
    · rfl

theorem date_buildRecord (today now : String) (shO : Except PyErr SHCand)
    (trO : Except PyErr TradeCand) : (buildRecord today now shO trO).date = today := rfl

theorem mem_upsertStep (h : List DailyRecord) (today : String) (rec : DailyRecord) :
    rec ∈ upsertStep h today rec := by
  unfold upsertStep
  have hperm := List.perm_insertionSort recLe
    (h.filter (fun r => !(r.date == today)) ++ [rec])
  exact hperm.mem_iff.2 (by simp)

theorem mainRun_skip {h : List DailyRecord} {today now : String} {force : Bool}
    {shO : Except PyErr SHCand} {trO : Except PyErr TradeCand}
    (hany : h.any (fun r => r.date == today) = true) (hf : force = false) :
    mainRun h today now force shO trO = RunOutcome.skipped := by
  unfold mainRun
  rw [if_pos]
  rw [hany, hf]
  rfl

theorem mainRun_saved {h : List DailyRecord} {today now : String} {force : Bool}
    {shO : Except PyErr SHCand} {trO : Except PyErr TradeCand}
    (hc : (h.any (fun r => r.date == today) && !force) = false) :
    mainRun h today now force shO trO
      = RunOutcome.saved (upsertStep h today (buildRecord today now shO trO)) := by
  unfold mainRun
  rw [if_neg]
  rw [hc]
  simp

theorem storeAfter_skip {h : List DailyRecord} {today now : String} {force : Bool}
    {shO : Except PyErr SHCand} {trO : Except PyErr TradeCand}
    (hm : mainRun h today now force shO trO = RunOutcome.skipped) :
    storeAfter h today now force shO trO = h := by
  unfold storeAfter
  rw [hm]

theorem storeAfter_saved {h : List DailyRecord} {today now : String} {force : Bool}
    {shO : Except PyErr SHCand} {trO : Except PyErr TradeCand} {l : List DailyRecord}
    (hm : mainRun h today now force shO trO = RunOutcome.saved l) :
    storeAfter h today now force shO trO = l := by
  unfold storeAfter
  rw [hm]

/-- Claim C3 (confirmed): a run on a date already in the history,
without the force flag, leaves the store untouched (the early return of
line 262 happens before anything is written), and the non-overwriting
run is idempotent: performing it twice yields the same store as once. -/
theorem claim_C3 :
    (∀ (history : List DailyRecord) (today now : String) (force : Bool)
        (shO : Except PyErr SHCand) (trO : Except PyErr TradeCand),
        history.any (fun r => r.date == today) = true → force = false →
        mainRun history today now force shO trO = RunOutcome.skipped)
    ∧ (∀ (history : List DailyRecord) (today now : String)
        (shO : Except PyErr SHCand) (trO : Except PyErr TradeCand),
        storeAfter (storeAfter history today now false shO trO) today now false shO trO
          = storeAfter history today now false shO trO) := by
  constructor
  · intro history today now force shO trO hany hf
    exact mainRun_skip hany hf
  · intro history today now shO trO
    by_cases hc : history.any (fun r => r.date == today) = true
    · have h1 := @mainRun_skip history today now false shO trO hc rfl
      have s1 := storeAfter_skip h1
      rw [s1]
      exact s1
    · have hc' : history.any (fun r => r.date == today) = false :=
        Bool.not_eq_true _ ▸ (by simpa using hc)
      have h1 := @mainRun_saved history today now false shO trO (by rw [hc']; rfl)
      have hany2 : (upsertStep history today (buildRecord today now shO trO)).any
          (fun r => r.date == today) = true := by
        rw [List.any_eq_true]
        refine ⟨buildRecord today now shO trO, mem_upsertStep _ _ _, ?_⟩
        rw [date_buildRecord]
        simp
      have h2 := @mainRun_skip (upsertStep history today (buildRecord today now shO trO)) today now false
        shO trO hany2 rfl
      have s1 := storeAfter_saved h1
      rw [s1]
      exact storeAfter_skip h2

/-- Claim C3, witness: a concrete one-record history for today's date
skips, and a concrete fresh run is idempotent. -/
theorem claim_C3_witness :
    mainRun [⟨"2025-01-02", "T", ⟨none, none, none, ""⟩, ⟨none, none, none, ""⟩, ⟨none, ""⟩⟩]
        "2025-01-02" "T" false (Except.error PyErr.valueError) (Except.error PyErr.valueError)
      = RunOutcome.skipped
    ∧ storeAfter (storeAfter [] ("2025-01-02") "T" false (Except.error PyErr.valueError)
          (Except.error PyErr.valueError)) "2025-01-02" "T" false
          (Except.error PyErr.valueError) (Except.error PyErr.valueError)
        = storeAfter [] ("2025-01-02") "T" false (Except.error PyErr.valueError)
          (Except.error PyErr.valueError) :=
  ⟨claim_C3.1 _ ("2025-01-02") "T" false _ _ (by decide) rfl,
   claim_C3.2 [] ("2025-01-02") "T" _ _⟩

/-- Claim C7 (confirmed): when the second-hand group's extraction
raises, the run continues — its stored group is all-absent with the
fixed note, the trade group's outcome is still consumed as usual (for
both an error and a success there), and the assembled record is still
persisted to the store whenever the run was not skipped; symmetrically
for a trade-group failure. -/
theorem claim_C7 (history : List DailyRecord) (today now : String) (force : Bool)
    (e : PyErr) (trO : Except PyErr TradeCand) :
    (buildRecord today now (Except.error e) trO).second_hand
        = ⟨none, none, none, "昨日网签成交（T+1）"⟩
    ∧ (∀ tc : TradeCand,
        (buildRecord today now (Except.error e) (Except.ok tc)).new_house.units
            = tc.new_house_units
        ∧ (buildRecord today now (Except.error e) (Except.ok tc)).new_house.area
            = tc.new_house_area
        ∧ (buildRecord today now (Except.error e) (Except.ok tc)).listing.total
            = tc.listing_total)
    ∧ (∀ shO : Except PyErr SHCand,
        (buildRecord today now shO (Except.error e)).new_house
            = ⟨none, none, none, "今日成交（当日累计）"⟩
        ∧ (buildRecord today now shO (Except.error e)).listing
            = ⟨none, "二手房出售挂牌套数"⟩)
    ∧ (history.any (fun r => r.date == today) = false →
        mainRun history today now force (Except.error e) trO
          = RunOutcome.saved
              (upsertStep history today (buildRecord today now (Except.error e) trO))
        ∧ buildRecord today now (Except.error e) trO
            ∈ upsertStep history today (buildRecord today now (Except.error e) trO)) := by
  refine ⟨rfl, fun tc => ⟨rfl, rfl, rfl⟩, fun shO => ⟨rfl, rfl⟩, fun hany => ⟨?_, ?_⟩⟩
  · exact @mainRun_saved history today now force (Except.error e) trO (by rw [hany]; rfl)
  · exact mem_upsertStep _ _ _

/-- Claim C7, witness: concrete failed second-hand group with a
successful trade group; the record is built and persisted. -/
theorem claim_C7_witness :
    (buildRecord ("2025-01-02") "T" (Except.error PyErr.valueError)
        (Except.ok ⟨some 3, none, some 7⟩)).second_hand
        = ⟨none, none, none, "昨日网签成交（T+1）"⟩
    ∧ mainRun [] ("2025-01-02") "T" false (Except.error PyErr.valueError)
          (Except.ok ⟨some 3, none, some 7⟩)
        = RunOutcome.saved (upsertStep [] ("2025-01-02")
            (buildRecord ("2025-01-02") "T" (Except.error PyErr.valueError)
              (Except.ok ⟨some 3, none, some 7⟩))) :=
  ⟨(claim_C7 [] ("2025-01-02") "T" false PyErr.valueError
      (Except.ok ⟨some 3, none, some 7⟩)).1,
   ((claim_C7 [] ("2025-01-02") "T" false PyErr.valueError
      (Except.ok ⟨some 3, none, some 7⟩)).2.2.2 (by decide)).1⟩

/-- Claim C9, counterexample.  With the credential absent
(`MINIMAX_API_KEY = ""`), the claim demands a non-zero exit before any
extraction; instead the run extracts via the regex strategy and
persists a populated record, completing normally (the model `main` has
no failure exit at all). -/
theorem claim_C9_counterexample :
    mainRun [] ("2025-01-02") "T" false
        (fetch_second_hand ("") (Except.ok ⟨some 1, some 1⟩)
          ("昨日二手房成交套数：4套 昨日二手房成交面积：100".toList))
        (fetch_trade ("") (Except.ok ⟨some 1, some 1, some 1⟩) [])
      = RunOutcome.saved [⟨"2025-01-02", "T",
          ⟨some 4, some 100, some 25, "昨日网签成交（T+1）"⟩,
          ⟨none, none, none, "今日成交（当日累计）"⟩,
          ⟨none, "二手房出售挂牌套数"⟩⟩] := by
  have hsh : fetch_second_hand ("") (Except.ok ⟨some 1, some 1⟩)
      ("昨日二手房成交套数：4套 昨日二手房成交面积：100".toList)
      = Except.ok ⟨some 4, some 100⟩ := by decide
  have htr : fetch_trade ("") (Except.ok ⟨some 1, some 1, some 1⟩) []
      = Except.ok ⟨none, none, none⟩ := by decide
  have havg : avg_area (some 4) (some 100) = some 25 := by with_unfolding_all rfl
  rw [hsh, htr]
  have hb : buildRecord ("2025-01-02") "T" (Except.ok ⟨some 4, some 100⟩)
      (Except.ok ⟨none, none, none⟩)
      = ⟨"2025-01-02", "T", ⟨some 4, some 100, some 25, "昨日网签成交（T+1）"⟩,
         ⟨none, none, none, "今日成交（当日累计）"⟩, ⟨none, "二手房出售挂牌套数"⟩⟩ := by
    unfold buildRecord
    simp only []
    rw [show getSH (Except.ok (⟨some 4, some 100⟩ : SHCand)) = ⟨some 4, some 100⟩ from rfl]
    rw [havg]
    rfl
  have hm := @mainRun_saved [] ("2025-01-02") "T" false (Except.ok ⟨some 4, some 100⟩)
    (Except.ok ⟨none, none, none⟩) (by decide)
  rw [hm, hb]
  decide

/-- Claim C9 (amended): a missing credential is detected by the upfront
key check guarding the model strategy — with `key = ""` the fetch never
consults the model oracle and equals the regex strategy's output — and
the run then completes normally (skip or save); it does not exit
non-zero, and extraction still proceeds. -/
theorem claim_C9 :
    (∀ (mm : Except PyErr SHCand) (t : List Char),
        fetch_second_hand ("") mm t = regex_parse_second_hand t)
    ∧ (∀ (mm : Except PyErr TradeCand) (t : List Char),
        fetch_trade ("") mm t = trade_regex t)
    ∧ (∀ (history : List DailyRecord) (today now : String) (force : Bool)
        (shO : Except PyErr SHCand) (trO : Except PyErr TradeCand),
        mainRun history today now force shO trO = RunOutcome.skipped
        ∨ ∃ l, mainRun history today now force shO trO = RunOutcome.saved l) := by
  refine ⟨?_, ?_, ?_⟩
  · intro mm t
    unfold fetch_second_hand
    rw [if_neg]
    simp
  · intro mm t
    unfold fetch_trade
    rw [if_neg]
    simp
  · intro history today now force shO trO
    unfold mainRun
    split
    · exact Or.inl rfl
    · exact Or.inr ⟨_, rfl⟩

theorem dropWhile_append_all {p : Char → Bool} {A B : List Char}
    (hA : A.all p = true) : (A ++ B).dropWhile p = B.dropWhile p := by
  induction A with
  | nil => rfl
  | cons a A' ih =>
      rw [List.all_cons, Bool.and_eq_true] at hA
      rw [List.cons_append, List.dropWhile_cons, if_pos hA.1, ih hA.2]

theorem extractGreedy_of_split (pre mid post : List Char)
    (hpre : pre.all (fun c => !(c = '\x7b')) = true)
    (hpost : post.all (fun c => !(c = '\x7d')) = true) :
    extractGreedy (pre ++ ('\x7b' :: (mid ++ ['\x7d'])) ++ post)
      = some ('\x7b' :: (mid ++ ['\x7d'])) := by
  unfold extractGreedy
  simp only []
  have ha : (pre ++ ('\x7b' :: (mid ++ ['\x7d'])) ++ post).dropWhile (fun c => !(c = '\x7b'))
      = ('\x7b' :: (mid ++ ['\x7d'])) ++ post := by
    rw [List.append_assoc, dropWhile_append_all hpre]
    rw [List.cons_append, List.dropWhile_cons]
    simp
  rw [ha]
  have hb : ((('\x7b' :: (mid ++ ['\x7d'])) ++ post).reverse.dropWhile
        (fun c => !(c = '\x7d'))).reverse = '\x7b' :: (mid ++ ['\x7d']) := by
    rw [List.reverse_append]
    rw [dropWhile_append_all (by rw [List.all_reverse]; exact hpost)]
    rw [show ('\x7b' :: (mid ++ ['\x7d'])).reverse = '\x7d' :: (mid.reverse ++ ['\x7b']) from by
      simp]
    rw [List.dropWhile_cons]
    simp
  rw [hb]
  simp

/-- Claim C6, counterexample.  On a response containing two objects
amid prose, the code's greedy brace-span regex hands `json.loads` the
span from the first opening brace to the last closing brace — not the
first balanced object the claim describes. -/
theorem claim_C6_counterexample :
    minimaxHandToLoads ("x \x7b\"a\": 1\x7d y \x7b\"b\": 2\x7d z".toList)
        = ("\x7b\"a\": 1\x7d y \x7b\"b\": 2\x7d".toList)
    ∧ firstBalanced ("x \x7b\"a\": 1\x7d y \x7b\"b\": 2\x7d z".toList)
        = some ("\x7b\"a\": 1\x7d".toList)
    ∧ ("\x7b\"a\": 1\x7d y \x7b\"b\": 2\x7d".toList) ≠ ("\x7b\"a\": 1\x7d".toList) := by
  refine ⟨by decide, by decide, by decide⟩

/-- Claim C6 (amended): the parser strips the code-fence markers and
then hands `json.loads` the greedy span from the first opening brace to
the last closing brace of the stripped response (the whole stripped
response when there is no such span).  When the stripped response is a
single brace-delimited region surrounded by brace-free prose, that
greedy span is exactly that region — the spec's "first balanced object"
description is accurate only in that single-object case. -/
theorem claim_C6 (raw pre mid post : List Char)
    (hsplit : pyStrip (stripFences raw) = pre ++ ('\x7b' :: (mid ++ ['\x7d'])) ++ post)
    (hpre : pre.all (fun c => !(c = '\x7b')) = true)
    (hpost : post.all (fun c => !(c = '\x7d')) = true) :
    minimaxHandToLoads raw = '\x7b' :: (mid ++ ['\x7d']) := by
  unfold minimaxHandToLoads
  simp only []
  rw [hsplit, extractGreedy_of_split pre mid post hpre hpost]

/-- Claim C6, witness: a fenced single-object response is cleaned and
its object extracted. -/
theorem claim_C6_witness :
    pyStrip (stripFences ("```json \x7b\"a\": 1\x7d ```".toList))
        = [] ++ ('\x7b' :: (("\"a\": 1".toList) ++ ['\x7d'])) ++ []
    ∧ minimaxHandToLoads ("```json \x7b\"a\": 1\x7d ```".toList)
        = '\x7b' :: (("\"a\": 1".toList) ++ ['\x7d']) :=
  ⟨by decide,
   claim_C6 ("```json \x7b\"a\": 1\x7d ```".toList) [] ("\"a\": 1".toList) []
     (by decide) (by decide) (by decide)⟩

theorem toList_inj {a b : String} (h : a.toList = b.toList) : a = b := by
  cases a
  cases b
  exact congrArg String.mk h

/-- Claim C2, counterexample.  The upsert step only removes records
with today's date; a loaded history that already contains two records
with the same (other) date keeps its duplicate after the upsert, so the
persisted sequence is not strictly ascending. -/
theorem claim_C2_counterexample :
    ¬ (((upsertStep
          [⟨"2025-01-01", "T", ⟨none, none, none, ""⟩, ⟨none, none, none, ""⟩, ⟨none, ""⟩⟩,
           ⟨"2025-01-01", "T", ⟨none, none, none, ""⟩, ⟨none, none, none, ""⟩, ⟨none, ""⟩⟩]
          "2025-01-02"
          ⟨"2025-01-02", "T", ⟨none, none, none, ""⟩, ⟨none, none, none, ""⟩, ⟨none, ""⟩⟩).map
        (fun r => r.date.toList)).Pairwise (fun a b => a < b)) := by
  decide

/-- Claim C2 (amended): for every loaded history whose records carry
pairwise-distinct dates, after the upsert step (filter out today, append
the new record, stable sort by date) the persisted sequence is strictly
ascending by date — in particular it has no duplicate dates. -/
theorem claim_C2 (history : List DailyRecord) (today : String) (rec : DailyRecord)
    (hd : rec.date = today)
    (hnodup : (history.map (fun r => r.date.toList)).Nodup) :
    ((upsertStep history today rec).map (fun r => r.date.toList)).Pairwise
      (fun a b => a < b) := by
  have hsorted : (upsertStep history today rec).Pairwise recLe := by
    unfold upsertStep
    exact List.sorted_insertionSort recLe _
  have hle : ((upsertStep history today rec).map (fun r => r.date.toList)).Pairwise
      (fun a b : List Char => a ≤ b) :=
    List.pairwise_map.2 (hsorted.imp (fun h => h))
  have hperm : List.Perm ((upsertStep history today rec).map (fun r => r.date.toList))
      (((history.filter (fun r => !(r.date == today))) ++ [rec]).map
          (fun r => r.date.toList)) := by
    unfold upsertStep
    exact (List.perm_insertionSort recLe _).map _
  have hnd : (((history.filter (fun r => !(r.date == today))) ++ [rec]).map
      (fun r => r.date.toList)).Nodup := by
    rw [List.map_append]
    rw [List.nodup_append]
    refine ⟨?_, by simp, ?_⟩
    · exact hnodup.sublist ((List.filter_sublist _).map _)
    · intro x hx hx2
      simp only [List.map_cons, List.map_nil, List.mem_cons, List.not_mem_nil,
        or_false] at hx2
      rw [List.mem_map] at hx
      obtain ⟨r, hr, hrx⟩ := hx
      rw [List.mem_filter] at hr
      have hrdate : r.date = rec.date := toList_inj (by rw [hrx, hx2])
      rw [hd] at hrdate
      have := hr.2
      rw [hrdate] at this
      simp at this
  have hnd2 : ((upsertStep history today rec).map (fun r => r.date.toList)).Nodup :=
    hperm.nodup_iff.2 hnd
  have hne : ((upsertStep history today rec).map (fun r => r.date.toList)).Pairwise
      (fun a b : List Char => a ≠ b) := hnd2
  exact (hle.and hne).imp (fun h => lt_of_le_of_ne h.1 h.2)

/-- Claim C2, witness: upserting into a concrete two-record history. -/
theorem claim_C2_witness :
    ((upsertStep
        [⟨"2025-01-03", "T", ⟨none, none, none, ""⟩, ⟨none, none, none, ""⟩, ⟨none, ""⟩⟩,
         ⟨"2025-01-01", "T", ⟨none, none, none, ""⟩, ⟨none, none, none, ""⟩, ⟨none, ""⟩⟩]
        "2025-01-02"
        ⟨"2025-01-02", "T", ⟨none, none, none, ""⟩, ⟨none, none, none, ""⟩, ⟨none, ""⟩⟩).map
      (fun r => r.date.toList)).Pairwise (fun a b => a < b) :=
  claim_C2 _ ("2025-01-02") _ rfl (by decide)

/-- Claim C8, counterexample.  An area value `12345.00` explicitly
tagged with the ten-thousand-square-meter unit `万㎡` is NOT multiplied
by 10000 (the code's conversion of line 126 looks only at the
magnitude, `val < 10000`), although the claim requires the conversion
whenever the unit is marked. -/
theorem claim_C8_counterexample :
    regex_parse_new_house ("今日 12345.00 万㎡".toList) = Except.ok ⟨none, some 12345⟩
    ∧ (12345 : ℚ) ≠ 12345 * 10000 := by
  constructor
  · have h1 : nhUnitsCapture ("今日 12345.00 万㎡".toList) = none := by decide
    have h2 : nhAreaRaw ("今日 12345.00 万㎡".toList) = some ("12345.00".toList) := by decide
    have h3 : pyFloat (removeCommas ("12345.00".toList)) = some 12345 := by
      with_unfolding_all rfl
    simp only [regex_parse_new_house, h1, h2, h3]
    norm_num
  · norm_num

/-- Claim C8 (amended): the ×10000 conversion is applied exactly when
the parsed raw value is below 10000 — a magnitude heuristic only; the
`万` unit marker in the text is never consulted.  In particular `4.22`
tagged `万㎡` normalises to `42200.0`, and an unmarked small value such
as `500 平方米` is also multiplied. -/
theorem claim_C8 :
    (∀ (t g : List Char) (v : ℚ), nhAreaRaw t = some g →
        pyFloat (removeCommas g) = some v →
        regex_parse_new_house t
          = Except.ok ⟨nhUnitsVal t, some (if v < 10000 then v * 10000 else v)⟩)
    ∧ regex_parse_new_house ("今日成交面积4.22万㎡".toList) = Except.ok ⟨none, some 42200⟩
    ∧ regex_parse_new_house ("面积500平方米".toList) = Except.ok ⟨none, some 5000000⟩ := by
  refine ⟨?_, ?_, ?_⟩
  · intro t g v ha hf
    exact rpnh_ok_area ha hf
  · have h1 : nhUnitsCapture ("今日成交面积4.22万㎡".toList) = none := by decide
    have h2 : nhAreaRaw ("今日成交面积4.22万㎡".toList) = some ("4.22".toList) := by decide
    have h3 : pyFloat (removeCommas ("4.22".toList)) = some (422/100) := by
      with_unfolding_all rfl
    simp only [regex_parse_new_house, h1, h2, h3]
    norm_num
  · have h1 : nhUnitsCapture ("面积500平方米".toList) = none := by decide
    have h2 : nhAreaRaw ("面积500平方米".toList) = some ("500".toList) := by decide
    have h3 : pyFloat (removeCommas ("500".toList)) = some 500 := by decide
    simp only [regex_parse_new_house, h1, h2, h3]
    norm_num

/-- Claim C8, witness: the magnitude rule applied at a concrete capture. -/
theorem claim_C8_witness :
    regex_parse_new_house ("面积88平方米".toList)
      = Except.ok ⟨nhUnitsVal ("面积88平方米".toList),
          some (if (88 : ℚ) < 10000 then 88 * 10000 else 88)⟩ :=
  claim_C8.1 ("面积88平方米".toList) ("88".toList) 88 (by decide) (by decide)

/-- Claim C10, counterexample.  On the input `昨日二手房成交面积,` the
area pattern captures the bare comma, `float(",".replace(",", ""))` is
`float("")`, and `regex_parse_second_hand` raises `ValueError` — the
parsers are not total. -/
theorem claim_C10_counterexample :
    regex_parse_second_hand ("昨日二手房成交面积,".toList) = Except.error PyErr.valueError
    ∧ regex_parse_new_house ("面积,平方米".toList) = Except.error PyErr.valueError := by
  refine ⟨by decide, by decide⟩

/-- Claim C10 (amended): `regex_parse_listing` always terminates and
never raises; `regex_parse_second_hand` and `regex_parse_new_house`
terminate and raise only in the single case where the matched numeric
token contains no digit at all (a comma/dot-only capture, giving
`float("")`/`float(".")`); and every field whose pattern does not match
is absent (`None`), never zero. -/
theorem claim_C10 :
    (∀ t : List Char, ∃ v, regex_parse_listing t = Except.ok v)
    ∧ (∀ (t : List Char) (e : PyErr), regex_parse_second_hand t = Except.error e →
        ∃ g, shAreaCapture t = some g ∧ g.any isDigit = false)
    ∧ (∀ (t : List Char) (e : PyErr), regex_parse_new_house t = Except.error e →
        ∃ g, nhAreaRaw t = some g ∧ g.any isDigit = false)
    ∧ (∀ (t : List Char) (c : SHCand), regex_parse_second_hand t = Except.ok c →
        (shUnitsCapture t = none → c.units = none)
        ∧ (shAreaCapture t = none → c.area = none))
    ∧ (∀ (t : List Char) (c : NHCand), regex_parse_new_house t = Except.ok c →
        (nhUnitsCapture t = none → c.units = none)
        ∧ (nhAreaRaw t = none → c.area = none))
    ∧ (∀ t : List Char, findallListing t = [] → regex_parse_listing t = Except.ok none) := by
  refine ⟨?_, ?_, ?_, ?_, ?_, ?_⟩
  · intro t
    unfold regex_parse_listing
    cases hf : findallListing t with
    | nil => exact ⟨none, rfl⟩
    | cons g gs =>
        have hmem : g ∈ findallAux (t.length + 1) t := by
          unfold findallListing at hf
          rw [hf]
          exact List.mem_cons_self g gs
        have hg := findallAux_digits _ _ hmem
        simp only []
        rw [pyInt_of_digits hg.1 hg.2]
        simp only []
        have hmem2 : ∀ x ∈ gs, x ≠ [] ∧ x.all isDigit = true := by
          intro x hx
          have : x ∈ findallAux (t.length + 1) t := by
            unfold findallListing at hf
            rw [hf]
            exact List.mem_cons_of_mem g hx
          exact findallAux_digits _ _ this
        obtain ⟨ns, hns⟩ := intsOfCaps_ok hmem2
        rw [hns]
        simp only []
        exact ⟨_, rfl⟩
  · intro t e h
    exact rpsh_error h
  · intro t e h
    exact rpnh_error h
  · intro t c h
    exact ⟨fun hu => rpsh_units_none h hu, fun ha => rpsh_area_none h ha⟩
  · intro t c h
    exact ⟨fun hu => rpnh_units_none h hu, fun ha => rpnh_area_none h ha⟩
  · intro t hf
    exact rpl_nomatch hf

/-- Claim C10, witness: the listing parser succeeds on arbitrary text,
and the characterised failure case exhibits its digit-free capture. -/
theorem claim_C10_witness :
    (∃ v, regex_parse_listing ("无".toList) = Except.ok v)
    ∧ (∃ g, shAreaCapture ("昨日二手房成交面积,".toList) = some g
        ∧ g.any isDigit = false) :=
  ⟨claim_C10.1 ("无".toList),
   claim_C10.2.1 ("昨日二手房成交面积,".toList) PyErr.valueError (by decide)⟩
